import Mathlib

/-!
Verification development for `stop_motion.py`: a shallow embedding of the
duration-allocator callbacks (`get_selected_indices_and_durations`,
`update_total_duration`, `rescale_individual_durations`) and the video
assembler (`generate_video`), with theorems about the spec's claims.

Arithmetic model. Python integers are `ℤ`. Python floats are IEEE-754
binary64 values; we represent each float by its exact rational value and
model rounding with `flq`, which rounds an exact rational to the nearest
dyadic rational with a 53-bit significand (ties to even). This is exact for
the normal range of binary64 (no overflow/underflow handling; every input
considered below stays far inside the normal range). Concretely:
* `t / c` on two Python ints is true division, correctly rounded: `pydiv`;
* `int * float` converts the int to a double (one rounding) and multiplies
  (one rounding): `pymul_int_float`;
* `int(x)` on a float truncates toward zero: `pytrunc`;
* `//` on ints is floor division: `Int.fdiv`.
-/

unseal Rat.add Rat.mul Rat.inv Rat.sub Rat.ofScientific

/-- Decidable equality for `Except`, used to evaluate the assembler on
concrete inputs. -/
instance {ε α : Type} [DecidableEq ε] [DecidableEq α] : DecidableEq (Except ε α) := fun a b =>
  match a, b with
  | .error e, .error e' =>
      if h : e = e' then isTrue (h ▸ rfl)
      else isFalse fun c => h (by injection c)
  | .error _, .ok _ => isFalse fun c => Except.noConfusion c
  | .ok _, .error _ => isFalse fun c => Except.noConfusion c
  | .ok a, .ok a' =>
      if h : a = a' then isTrue (h ▸ rfl)
      else isFalse fun c => h (by injection c)

namespace StopMotion

/-- Floor of a rational as an integer: `Int` division `/` is Euclidean
division and `q.den > 0`, so `q.num / q.den = ⌊q⌋`. -/
def rfloor (q : ℚ) : ℤ := q.num / q.den

/-- Truncation toward zero, the semantics of Python's `int()` on a float:
`Int.tdiv` is T-division. -/
def pytrunc (q : ℚ) : ℤ := q.num.tdiv q.den

/-- Round a rational to the nearest integer, ties to even. -/
def roundHalfEven (m : ℚ) : ℤ :=
  let f := rfloor m
  let r := m - (f : ℚ)
  if r < 1/2 then f else if 1/2 < r then f + 1 else if f % 2 = 0 then f else f + 1

/-- Fuel-based base-2 logarithm on `ℕ` (structural recursion so that the
kernel can evaluate it): for `n ≥ 1`, `ilog2Aux fuel n = ⌊log₂ n⌋` whenever
`fuel ≥ log₂ n`. -/
def ilog2Aux : ℕ → ℕ → ℕ
  | 0, _ => 0
  | fuel + 1, n => if 2 ≤ n then ilog2Aux fuel (n / 2) + 1 else 0

/-- Base-2 logarithm, `⌊log₂ n⌋` for `n ≥ 1`. -/
def ilog2 (n : ℕ) : ℕ := ilog2Aux n n

/-- Binary exponent of a positive rational `a`: the unique `e : ℤ` with
`2 ^ e ≤ a < 2 ^ (e + 1)`. -/
def qexp (a : ℚ) : ℤ :=
  if 1 ≤ a then (ilog2 (rfloor a).toNat : ℤ)
  else
    let l := ilog2 (rfloor (1 / a)).toNat
    if a * ((2 ^ l : ℕ) : ℚ) = 1 then -(l : ℤ) else -(l : ℤ) - 1

/-- Round an exact rational to the nearest IEEE-754 binary64 value (as an
exact rational): 53-bit significand, round to nearest, ties to even. Valid in
the normal range of binary64. -/
def flq (x : ℚ) : ℚ :=
  if x = 0 then 0
  else
    let a := if x < 0 then -x else x
    let e := qexp a
    let res :=
      if 0 ≤ 52 - e then
        (roundHalfEven (a * ((2 ^ (52 - e).toNat : ℕ) : ℚ)) : ℚ) /
          ((2 ^ (52 - e).toNat : ℕ) : ℚ)
      else
        (roundHalfEven (a / ((2 ^ (e - 52).toNat : ℕ) : ℚ)) : ℚ) *
          ((2 ^ (e - 52).toNat : ℕ) : ℚ)
    if x < 0 then -res else res

/-- Python `a / b` on two ints: exact quotient, correctly rounded to a
double. -/
def pydiv (a b : ℤ) : ℚ := flq ((a : ℚ) / (b : ℚ))

/-- Python `a * s` with `a` an int and `s` a float: `a` is converted to a
double, then the product is rounded once. -/
def pymul_int_float (a : ℤ) (s : ℚ) : ℚ := flq (flq (a : ℚ) * s)

/-! The session state of the Streamlit app, as far as the duration allocator
reads and writes it: per image index `i < numImages` a checkbox `use_{i}` and
a duration field `dur_{i}`, plus the `total_duration` field. -/

structure SessionState where
  numImages : ℕ
  use : ℕ → Bool
  dur : ℕ → ℤ
  total_duration : ℤ

/-- `get_selected_indices_and_durations`: indices of the checked images, in
discovery order, with their durations. -/
def get_selected_indices_and_durations (s : SessionState) : List ℕ × List ℤ :=
  let indices := (List.range s.numImages).filter s.use
  let durations := indices.map s.dur
  (indices, durations)

/-- `update_total_duration`: callback setting `total_duration` to the sum of
the selected durations. -/
def update_total_duration (s : SessionState) : SessionState :=
  { s with total_duration := (get_selected_indices_and_durations s).2.sum }

/-- `rescale_individual_durations`: callback rescaling the selected durations
when the total is edited. The `for i in indices` loops are folds updating
`dur_{i}`; the proportional branch computes `scale = target_total /
current_total` in float arithmetic and truncates `dur * scale` with
`int()`. -/
def rescale_individual_durations (s : SessionState) : SessionState :=
  let p := get_selected_indices_and_durations s
  let indices := p.1
  let durations := p.2
  if indices = [] then s
  else
    let current_total := durations.sum
    let target_total := s.total_duration
    if current_total = 0 then
      let new_duration :=
        if indices.isEmpty then 0 else Int.fdiv target_total (indices.length : ℤ)
      { s with dur := indices.foldl (fun g i => Function.update g i new_duration) s.dur }
    else
      let scale := pydiv target_total current_total
      let newDur := indices.foldl (fun g i => Function.update g i (pytrunc (pymul_int_float (g i) scale))) s.dur
      { s with dur := newDur }

/-! The video assembler. Images are abstract (`α`): loading an image from a
path is the identity in the model, since decoding is delegated to the imaging
library. The writer is a list of appended frames; the result is `.error msg`
when the function reports `st.error` and returns without creating a writer,
and `.ok frames` when the writer was opened, filled and closed. -/

/-- Fixed frame interval in milliseconds (25 fps). -/
def frame_duration_ms : ℤ := 40

/-- `generate_video`: validity check on all durations, then one
`writer.append_data` per frame, `max(1, duration // 40)` frames per pair of
`zip(image_paths, durations)`. -/
def generate_video {α : Type} (image_paths : List α) (durations : List ℤ) :
    Except String (List α) :=
  let valid_durations := durations.filter (fun d => decide (0 < d))
  if valid_durations.isEmpty then
    .error "Cannot generate video with zero duration for all frames."
  else
    .ok ((image_paths.zip durations).foldl
      (fun writer pd =>
        let num_frames := max 1 (Int.fdiv pd.2 frame_duration_ms)
        writer ++ List.replicate num_frames.toNat pd.1) [])

/-- Effect of a `generate_video` call on the content stored at
`output_path`: on the error path nothing is written and the prior content
survives; otherwise the file is overwritten with the new frames. -/
def run_generate_video {α : Type} (image_paths : List α) (durations : List ℤ)
    (prev : Option (List α)) : Option (List α) :=
  match generate_video image_paths durations with
  | .error _ => prev
  | .ok frames => some frames

/-- Frames contributed by one `(image, duration)` pair. -/
def framesFor {α : Type} (pd : α × ℤ) : List α :=
  List.replicate (max 1 (Int.fdiv pd.2 frame_duration_ms)).toNat pd.1

/-- Per-item rescale formula as the spec words it, in exact arithmetic:
`floor(old_duration * target_total / current_total)` computed on the exact
rationals. Used to compare the code's float computation against the spec's
exact-integer reading. -/
def floor_rescale_spec (d t c : ℤ) : ℤ := rfloor ((d : ℚ) * (t : ℚ) / (c : ℚ))

/-- Single image of duration 7 ms, total edited to 115 ms. -/
def stateC1 : SessionState := ⟨1, fun _ => true, fun _ => 7, 115⟩

/-- Single image of duration 735152 ms, total edited to 16680529875412462 ms. -/
def stateC4 : SessionState := ⟨1, fun _ => true, fun _ => 735152, 16680529875412462⟩

/-- Two images of durations 3 ms and 15 ms, total edited to 294 ms. -/
def stateW1 : SessionState := ⟨2, fun _ => true, fun i => if i = 0 then 3 else 15, 294⟩

/-- Three images, the middle one deselected, all durations 0, total 500 ms. -/
def stateW5 : SessionState := ⟨3, fun i => decide (i ≠ 1), fun _ => 0, 500⟩

/-- Two images of durations 200 ms, the second deselected, total 999 ms. -/
def stateW8 : SessionState := ⟨2, fun i => decide (i = 0), fun _ => 200, 999⟩

/-- Two images, both deselected. -/
def stateW10 : SessionState := ⟨2, fun _ => false, fun _ => 200, 777⟩

/-- Two images of durations 3 ms and 15 ms, both selected, total 294 ms
(used to evaluate `update_total_duration`). -/
def stateW6 : SessionState := ⟨2, fun _ => true, fun i => if i = 0 then 3 else 15, 294⟩

/-! Helper lemmas. -/

lemma rfloor_eq_floor (q : ℚ) : rfloor q = ⌊q⌋ := Rat.floor_def.symm

lemma rfloor_le (q : ℚ) : (rfloor q : ℚ) ≤ q := by
  rw [rfloor_eq_floor]; exact Int.floor_le q

lemma lt_rfloor_add_one (q : ℚ) : q < rfloor q + 1 := by
  rw [rfloor_eq_floor]; exact_mod_cast Int.lt_floor_add_one q

lemma selected_indices_def (s : SessionState) :
    (get_selected_indices_and_durations s).1 = (List.range s.numImages).filter s.use := rfl

lemma selected_durations_def (s : SessionState) :
    (get_selected_indices_and_durations s).2
      = ((List.range s.numImages).filter s.use).map s.dur := rfl

lemma mem_selected_iff (s : SessionState) (i : ℕ) :
    i ∈ (get_selected_indices_and_durations s).1 ↔ i < s.numImages ∧ s.use i = true := by
  rw [selected_indices_def]
  simp [List.mem_filter, List.mem_range]

lemma selected_nodup (s : SessionState) : (get_selected_indices_and_durations s).1.Nodup := by
  rw [selected_indices_def]
  exact (List.nodup_range s.numImages).filter _

/-- Effect of the update loops in `rescale_individual_durations` on one index:
folding `Function.update` along a duplicate-free index list writes `F` of the
old value at each listed index and nothing elsewhere. -/
lemma foldl_update_apply (F : ℤ → ℤ) :
    ∀ (l : List ℕ), l.Nodup → ∀ (g : ℕ → ℤ) (j : ℕ),
      (l.foldl (fun g i => Function.update g i (F (g i))) g) j
        = if j ∈ l then F (g j) else g j
  | [], _, g, j => by simp
  | i :: tl, h, g, j => by
    have hnd := List.nodup_cons.mp h
    rw [List.foldl_cons, foldl_update_apply F tl hnd.2]
    by_cases hji : j = i
    · subst hji
      simp [hnd.1, Function.update_same]
    · by_cases hjt : j ∈ tl
      · simp [hjt, hji, Function.update_noteq hji]
      · simp [hjt, hji, Function.update_noteq hji]

/-- Casting a sum of integers to `ℚ` term by term. -/
lemma sum_intCast (l : List ℤ) : ((l.sum : ℤ) : ℚ) = (l.map (fun d => (d : ℚ))).sum := by
  induction l with
  | nil => simp
  | cons a tl ih => simp [ih]

/-- With no selected index, `rescale_individual_durations` returns the state
unchanged. -/
lemma rescale_eq_self (s : SessionState)
    (h : (get_selected_indices_and_durations s).1 = []) :
    rescale_individual_durations s = s := by
  simp only [rescale_individual_durations]
  rw [if_pos h]

/-- Proportional branch of `rescale_individual_durations`: pointwise effect on
the duration table. -/
lemma rescale_dur_eq_float (s : SessionState) (i : ℕ)
    (hne : (get_selected_indices_and_durations s).1 ≠ [])
    (hc : (get_selected_indices_and_durations s).2.sum ≠ 0) :
    (rescale_individual_durations s).dur i
      = if i ∈ (get_selected_indices_and_durations s).1
        then pytrunc (pymul_int_float (s.dur i)
              (pydiv s.total_duration (get_selected_indices_and_durations s).2.sum))
        else s.dur i := by
  simp only [rescale_individual_durations]
  rw [if_neg hne, if_neg hc]
  exact foldl_update_apply
    (fun x => pytrunc (pymul_int_float x
      (pydiv s.total_duration (get_selected_indices_and_durations s).2.sum)))
    _ (selected_nodup s) s.dur i

/-- Even-distribution branch of `rescale_individual_durations`: pointwise
effect on the duration table. -/
lemma rescale_dur_eq_even (s : SessionState) (i : ℕ)
    (hne : (get_selected_indices_and_durations s).1 ≠ [])
    (hc : (get_selected_indices_and_durations s).2.sum = 0) :
    (rescale_individual_durations s).dur i
      = if i ∈ (get_selected_indices_and_durations s).1
        then Int.fdiv s.total_duration ((get_selected_indices_and_durations s).1.length : ℤ)
        else s.dur i := by
  simp only [rescale_individual_durations]
  rw [if_neg hne, if_pos hc]
  have hemp : (get_selected_indices_and_durations s).1.isEmpty = false :=
    List.isEmpty_eq_false.mpr hne
  rw [hemp]
  simp only [Bool.false_eq_true, if_false]
  exact foldl_update_apply
    (fun _ => Int.fdiv s.total_duration ((get_selected_indices_and_durations s).1.length : ℤ))
    _ (selected_nodup s) s.dur i

/-- Factoring the constant ratio `t/c` out of the summed exact per-item
values. -/
lemma sum_exact_factor (t c : ℤ) : ∀ l : List ℤ,
    (l.map (fun d : ℤ => (d : ℚ) * (t : ℚ) / (c : ℚ))).sum
      = ((l.sum : ℤ) : ℚ) * (t : ℚ) / (c : ℚ)
  | [] => by simp
  | a :: tl => by
    simp only [List.map_cons, List.sum_cons, sum_exact_factor t c tl, List.sum_cons,
      Int.cast_add]
    ring

/-- Casting the summed integer floors to `ℚ` term by term. -/
lemma sum_floor_cast (t c : ℤ) : ∀ l : List ℤ,
    (((l.map (fun d => floor_rescale_spec d t c)).sum : ℤ) : ℚ)
      = (l.map (fun d => ((floor_rescale_spec d t c : ℤ) : ℚ))).sum
  | [] => by simp
  | a :: tl => by
    simp only [List.map_cons, List.sum_cons, Int.cast_add, sum_floor_cast t c tl]

/-- Splitting the `+1` off each summand. -/
lemma sum_floor_add_one (t c : ℤ) : ∀ l : List ℤ,
    (l.map (fun d => ((floor_rescale_spec d t c : ℤ) : ℚ) + 1)).sum
      = (l.map (fun d => ((floor_rescale_spec d t c : ℤ) : ℚ))).sum + (l.length : ℚ)
  | [] => by simp
  | a :: tl => by
    simp only [List.map_cons, List.sum_cons, List.length_cons, sum_floor_add_one t c tl,
      Nat.cast_succ]
    ring

/-- Truncation drift of the exact-arithmetic proportional rescale: when the
current total `l.sum` is nonzero, the per-item exact values `d·t/c` sum to
exactly `t`, and each floor loses less than 1, so the summed result stays
within `l.length` of the target. -/
lemma sum_floor_rescale_bound (l : List ℤ) (t : ℤ) (hl : l ≠ []) (hc : l.sum ≠ 0) :
    ((l.map (fun d => floor_rescale_spec d t l.sum)).sum - t).natAbs ≤ l.length := by
  have hcq : ((l.sum : ℤ) : ℚ) ≠ 0 := Int.cast_ne_zero.mpr hc
  have hexact : (l.map (fun d : ℤ => (d : ℚ) * (t : ℚ) / ((l.sum : ℤ) : ℚ))).sum = (t : ℚ) := by
    rw [sum_exact_factor t l.sum l, mul_comm, mul_div_assoc, div_self hcq, mul_one]
  have hub : (((l.map (fun d => floor_rescale_spec d t l.sum)).sum : ℤ) : ℚ) ≤ (t : ℚ) := by
    rw [sum_floor_cast t l.sum l, ← hexact]
    simp only [floor_rescale_spec]
    exact List.sum_le_sum
      (fun (d : ℤ) (_ : d ∈ l) => rfloor_le ((d : ℚ) * (t : ℚ) / ((l.sum : ℤ) : ℚ)))
  have hlbq : (t : ℚ) < (((l.map (fun d => floor_rescale_spec d t l.sum)).sum : ℤ) : ℚ)
      + (l.length : ℚ) := by
    rw [sum_floor_cast t l.sum l, ← sum_floor_add_one t l.sum l, ← hexact]
    simp only [floor_rescale_spec]
    exact List.sum_lt_sum_of_ne_nil hl
      (fun d : ℤ => (d : ℚ) * (t : ℚ) / ((l.sum : ℤ) : ℚ))
      (fun d : ℤ => ((rfloor ((d : ℚ) * (t : ℚ) / ((l.sum : ℤ) : ℚ)) : ℤ) : ℚ) + 1)
      (fun (d : ℤ) (_ : d ∈ l) => lt_rfloor_add_one ((d : ℚ) * (t : ℚ) / ((l.sum : ℤ) : ℚ)))
  have hub' : (l.map (fun d => floor_rescale_spec d t l.sum)).sum ≤ t := by exact_mod_cast hub
  have hlb' : t < (l.map (fun d => floor_rescale_spec d t l.sum)).sum + (l.length : ℤ) := by
    exact_mod_cast hlbq
  omega

/-- The writer loop of `generate_video`, unrolled: appending
`max(1, d // 40)` copies of each image in order. -/
lemma foldl_append_frames {α : Type} :
    ∀ (l : List (α × ℤ)) (init : List α),
      l.foldl (fun writer pd =>
          writer ++ List.replicate (max 1 (Int.fdiv pd.2 frame_duration_ms)).toNat pd.1) init
        = init ++ l.flatMap framesFor
  | [], init => by simp
  | pd :: tl, init => by
    rw [List.foldl_cons, foldl_append_frames tl, List.flatMap_cons]
    simp [framesFor, List.append_assoc]

/-- The validity check of `generate_video` passes exactly when some duration
is positive. -/
lemma valid_nonempty_iff {durs : List ℤ} :
    (durs.filter (fun d => decide (0 < d))).isEmpty = false ↔ ∃ d ∈ durs, 0 < d := by
  rw [List.isEmpty_eq_false]
  constructor
  · intro h
    by_contra hx
    push_neg at hx
    exact h (List.filter_eq_nil_iff.mpr (fun a ha => by simpa using hx a ha))
  · rintro ⟨d, hd, hdp⟩ h
    have := List.filter_eq_nil_iff.mp h d hd
    simp only [decide_eq_true_eq] at this
    exact this hdp

/-- Closed form of `generate_video` on accepted input. -/
lemma generate_video_eq_ok {α : Type} (paths : List α) (durs : List ℤ)
    (h : ∃ d ∈ durs, 0 < d) :
    generate_video paths durs = .ok ((paths.zip durs).flatMap framesFor) := by
  simp only [generate_video]
  rw [valid_nonempty_iff.mpr h, if_neg Bool.false_ne_true, foldl_append_frames]
  rw [List.nil_append]

/-- `generate_video` on input whose durations are all nonpositive: the error
message of the `st.error` call, and no writer is created. -/
lemma generate_video_eq_error {α : Type} (paths : List α) (durs : List ℤ)
    (h : ∀ d ∈ durs, d ≤ 0) :
    generate_video paths durs
      = .error "Cannot generate video with zero duration for all frames." := by
  simp only [generate_video]
  have hnil : durs.filter (fun d => decide (0 < d)) = [] :=
    List.filter_eq_nil_iff.mpr (fun a ha => by simpa using not_lt.mpr (h a ha))
  rw [hnil]
  rfl

/-- An item with nonpositive duration contributes exactly one frame. -/
lemma framesFor_nonpos {α : Type} (p : α) (d : ℤ) (hd : d ≤ 0) : framesFor (p, d) = [p] := by
  unfold framesFor frame_duration_ms
  have hediv : Int.fdiv d 40 = d / 40 := Int.fdiv_eq_ediv d (by norm_num)
  have hle : Int.fdiv d 40 ≤ 0 := by rw [hediv]; omega
  have hmax : max 1 (Int.fdiv d 40) = 1 := max_eq_left (by omega)
  rw [hmax]
  rfl

/-- Filtering then mapping sums the same as mapping with a zero default. -/
lemma sum_filter_map (p : ℕ → Bool) (f : ℕ → ℤ) : ∀ l : List ℕ,
    ((l.filter p).map f).sum = (l.map (fun i => if p i then f i else 0)).sum
  | [] => rfl
  | a :: tl => by
    by_cases h : p a
    · simp [List.filter_cons, h, sum_filter_map p f tl]
    · simp [List.filter_cons, h, sum_filter_map p f tl]

/-! Claims. -/

/-- Claim C1, counterexample: with one selected image of duration 7 ms and the
total edited to 115 ms, the code stores `int(7 * (115/7)) = 114`, while the
claimed exact integer arithmetic `floor(7 * 115 / 7) = 115`. The float
quotient `115/7` rounds down, so the product lands just below 115 and the
truncation drops it to 114. -/
theorem claim_C1_counterexample :
    (rescale_individual_durations stateC1).dur 0 = 114
      ∧ floor_rescale_spec (stateC1.dur 0) stateC1.total_duration
          (get_selected_indices_and_durations stateC1).2.sum = 115 := by
  decide

/-- Claim C1 (amended): for every rescale with at least one included item and
nonzero current total of included durations, each included item's new duration
equals the truncation toward zero of `old_duration * (target_total /
current_total)` computed in IEEE-754 binary64 float arithmetic (the quotient
rounded once, the int converted to double, the product rounded once). This
agrees with `floor(old * target / current)` for typical interface-scale values
but is not exact integer arithmetic, and can differ from it. -/
theorem claim_C1_amended (s : SessionState) (i : ℕ)
    (hmem : i ∈ (get_selected_indices_and_durations s).1)
    (hc : (get_selected_indices_and_durations s).2.sum ≠ 0) :
    (rescale_individual_durations s).dur i
      = pytrunc (pymul_int_float (s.dur i)
          (pydiv s.total_duration (get_selected_indices_and_durations s).2.sum)) := by
  have hne : (get_selected_indices_and_durations s).1 ≠ [] := List.ne_nil_of_mem hmem
  rw [rescale_dur_eq_float s i hne hc, if_pos hmem]

/-- Claim C1 (amended), witness at a concrete state: two selected images of
durations 3 ms and 15 ms, total edited to 294 ms; item 1. -/
theorem claim_C1_amended_witness :
    (rescale_individual_durations stateW1).dur 1
      = pytrunc (pymul_int_float (stateW1.dur 1)
          (pydiv stateW1.total_duration
            (get_selected_indices_and_durations stateW1).2.sum)) :=
  claim_C1_amended stateW1 1 (by decide) (by decide)

/-- Claim C2: for every accepted input (some duration positive), the output
frame stream is the in-order concatenation of `max(1, duration // 40)` copies
of each image; in particular `[(A, 90), (B, 40)]` gives exactly `A, A, B` and
`[(A, 10)]` gives exactly one frame. -/
theorem claim_C2_frame_assembly {α : Type} (paths : List α) (durs : List ℤ)
    (h : ∃ d ∈ durs, 0 < d) :
    generate_video paths durs = .ok ((paths.zip durs).flatMap framesFor)
      ∧ (∀ A B : α, generate_video [A, B] [90, 40] = .ok [A, A, B])
      ∧ (∀ A : α, generate_video [A] [10] = .ok [A]) := by
  refine ⟨generate_video_eq_ok paths durs h, ?_, ?_⟩
  · intro A B
    rw [generate_video_eq_ok [A, B] [90, 40] ⟨90, by simp, by norm_num⟩]
    rfl
  · intro A
    rw [generate_video_eq_ok [A] [10] ⟨10, by simp, by norm_num⟩]
    rfl

/-- Claim C2, witness at concrete input. -/
theorem claim_C2_witness :
    generate_video [7, 8] [90, 40] = .ok (([7, 8].zip [90, 40]).flatMap framesFor)
      ∧ generate_video [7, 8] [90, 40] = .ok [7, 7, 8]
      ∧ generate_video [7] [10] = .ok [7] :=
  ⟨(claim_C2_frame_assembly [7, 8] [90, 40] (by decide)).1,
    (claim_C2_frame_assembly [7, 8] [90, 40] (by decide)).2.1 7 8,
    (claim_C2_frame_assembly [7, 8] [90, 40] (by decide)).2.2 7⟩

/-- Claim C3: on input whose durations are all nonpositive (including the
empty input), `generate_video` reports the `st.error` message and returns
before any writer is created: nothing is written and the prior content of the
output path survives. -/
theorem claim_C3_invalid_input {α : Type} (paths : List α) (durs : List ℤ)
    (prev : Option (List α)) (h : ∀ d ∈ durs, d ≤ 0) :
    generate_video paths durs
        = .error "Cannot generate video with zero duration for all frames."
      ∧ run_generate_video paths durs prev = prev := by
  have herr := generate_video_eq_error paths durs h
  refine ⟨herr, ?_⟩
  unfold run_generate_video
  rw [herr]

/-- Claim C3, witness at concrete input. -/
theorem claim_C3_witness :
    generate_video [1, 2] [0, -3]
        = .error "Cannot generate video with zero duration for all frames."
      ∧ run_generate_video [1, 2] [0, -3] (some [9]) = some [9] :=
  claim_C3_invalid_input [1, 2] [0, -3] (some [9]) (by decide)

/-- Claim C4, counterexample: with one selected image of duration 735152 ms
and the total edited to 16680529875412462 ms, the float computation stores
16680529875412460, so the summed new durations differ from the target by 2,
exceeding the claimed bound N = 1. -/
theorem claim_C4_counterexample :
    ¬ (((get_selected_indices_and_durations
            (rescale_individual_durations stateC4)).2.sum
          - stateC4.total_duration).natAbs
        ≤ (get_selected_indices_and_durations stateC4).1.length) := by
  decide

/-- Claim C4 (amended): for the per-item formula the spec prescribes,
`floor(old * target / current)` in exact arithmetic, the summed results stay
within N of the target (each exact share `d·t/c` sums to exactly `t` and each
floor loses less than 1); the code's float arithmetic can violate this bound
(see the counterexample). -/
theorem claim_C4_amended (s : SessionState)
    (hne : (get_selected_indices_and_durations s).1 ≠ [])
    (hc : (get_selected_indices_and_durations s).2.sum ≠ 0) :
    (((get_selected_indices_and_durations s).2.map
        (fun d => floor_rescale_spec d s.total_duration
          (get_selected_indices_and_durations s).2.sum)).sum
        - s.total_duration).natAbs
      ≤ (get_selected_indices_and_durations s).1.length := by
  have hdne : (get_selected_indices_and_durations s).2 ≠ [] := by
    rw [selected_durations_def]
    intro hmapnil
    exact hne (by rw [selected_indices_def]; exact List.map_eq_nil_iff.mp hmapnil)
  have hlen : (get_selected_indices_and_durations s).2.length
      = (get_selected_indices_and_durations s).1.length := by
    rw [selected_durations_def, selected_indices_def, List.length_map]
  calc (((get_selected_indices_and_durations s).2.map
        (fun d => floor_rescale_spec d s.total_duration
          (get_selected_indices_and_durations s).2.sum)).sum
        - s.total_duration).natAbs
      ≤ (get_selected_indices_and_durations s).2.length :=
        sum_floor_rescale_bound _ s.total_duration hdne hc
    _ = (get_selected_indices_and_durations s).1.length := hlen

/-- Claim C4 (amended), witness at a concrete state. -/
theorem claim_C4_amended_witness :
    (((get_selected_indices_and_durations stateW1).2.map
        (fun d => floor_rescale_spec d stateW1.total_duration
          (get_selected_indices_and_durations stateW1).2.sum)).sum
        - stateW1.total_duration).natAbs
      ≤ (get_selected_indices_and_durations stateW1).1.length :=
  claim_C4_amended stateW1 (by decide) (by decide)

/-- Claim C5: when the selected durations sum to 0 and at least one item is
selected, every selected item receives `target // N` by Python floor division,
with the remainder dropped. -/
theorem claim_C5_even_distribution (s : SessionState) (i : ℕ)
    (hmem : i ∈ (get_selected_indices_and_durations s).1)
    (hzero : (get_selected_indices_and_durations s).2.sum = 0) :
    (rescale_individual_durations s).dur i
      = Int.fdiv s.total_duration
          ((get_selected_indices_and_durations s).1.length : ℤ) := by
  have hne : (get_selected_indices_and_durations s).1 ≠ [] := List.ne_nil_of_mem hmem
  rw [rescale_dur_eq_even s i hne hzero, if_pos hmem]

/-- Claim C5, witness: three images with the middle one deselected, all
durations 0, total 500 ms; item 2 receives `500 // 2 = 250`. -/
theorem claim_C5_witness :
    (rescale_individual_durations stateW5).dur 2
      = Int.fdiv stateW5.total_duration
          ((get_selected_indices_and_durations stateW5).1.length : ℤ) :=
  claim_C5_even_distribution stateW5 2 (by decide) (by decide)

/-- Claim C6: `update_total_duration` stores exactly the sum of `duration_ms`
over the included items, and stores 0 when no item is included. -/
theorem claim_C6_recompute_total (s : SessionState) :
    (update_total_duration s).total_duration
        = ((List.range s.numImages).map (fun i => if s.use i then s.dur i else 0)).sum
      ∧ ((∀ i, i < s.numImages → s.use i = false)
          → (update_total_duration s).total_duration = 0) := by
  constructor
  · show (get_selected_indices_and_durations s).2.sum = _
    rw [selected_durations_def]
    exact sum_filter_map s.use s.dur (List.range s.numImages)
  · intro h
    show (get_selected_indices_and_durations s).2.sum = 0
    rw [selected_durations_def]
    have hnil : (List.range s.numImages).filter s.use = [] :=
      List.filter_eq_nil_iff.mpr (fun a ha => by simp [h a (List.mem_range.mp ha)])
    rw [hnil]
    rfl

/-- Claim C6, witness at concrete states (one with selections, one with
none). -/
theorem claim_C6_witness :
    (update_total_duration stateW6).total_duration
        = ((List.range stateW6.numImages).map
            (fun i => if stateW6.use i then stateW6.dur i else 0)).sum
      ∧ (update_total_duration stateW10).total_duration = 0 :=
  ⟨(claim_C6_recompute_total stateW6).1,
    (claim_C6_recompute_total stateW10).2 (by decide)⟩

/-- Claim C7: an input with at least one positive duration is not rejected,
and each pair with nonpositive duration is still iterated, contributing
exactly one frame. -/
theorem claim_C7_nonpositive_contributes_one {α : Type} (paths : List α)
    (durs : List ℤ) (h : ∃ d ∈ durs, 0 < d) :
    generate_video paths durs = .ok ((paths.zip durs).flatMap framesFor)
      ∧ (∀ (p : α) (d : ℤ), d ≤ 0 → framesFor (p, d) = [p]) :=
  ⟨generate_video_eq_ok paths durs h, fun p d hd => framesFor_nonpos p d hd⟩

/-- Claim C7, witness at concrete input: duration 0 still yields one frame. -/
theorem claim_C7_witness :
    generate_video [5, 6] [0, 50] = .ok (([5, 6].zip [0, 50]).flatMap framesFor)
      ∧ framesFor (5, (0 : ℤ)) = [5] :=
  ⟨(claim_C7_nonpositive_contributes_one [5, 6] [0, 50] (by decide)).1,
    (claim_C7_nonpositive_contributes_one [5, 6] [0, 50] (by decide)).2 5 0 (by decide)⟩

/-- Claim C9: frames come from `zip(image_paths, durations)`, whose length is
the minimum of the two lengths, the excess of the longer sequence ignored;
with empty paths but a positive duration present, the validity check passes
and an empty frame stream overwrites any prior output. -/
theorem claim_C9_zip_truncation {α : Type} (paths : List α) (durs : List ℤ)
    (h : ∃ d ∈ durs, 0 < d) :
    generate_video paths durs = .ok ((paths.zip durs).flatMap framesFor)
      ∧ (paths.zip durs).length = min paths.length durs.length
      ∧ (∀ (d : ℤ) (prev : Option (List α)), 0 < d →
          generate_video ([] : List α) [d] = .ok []
            ∧ run_generate_video ([] : List α) [d] prev = some []) := by
  refine ⟨generate_video_eq_ok paths durs h, List.length_zip paths durs, ?_⟩
  intro d prev hd
  have hok : generate_video ([] : List α) [d]
      = .ok ((([] : List α).zip [d]).flatMap framesFor) :=
    generate_video_eq_ok ([] : List α) [d] ⟨d, by simp, hd⟩
  have hnil : ((([] : List α).zip [d]).flatMap framesFor) = [] := rfl
  rw [hnil] at hok
  refine ⟨hok, ?_⟩
  unfold run_generate_video
  rw [hok]

/-- Claim C9, witness at concrete input: one path, two durations. -/
theorem claim_C9_witness :
    generate_video [1] [0, 5] = .ok (([1].zip [0, 5]).flatMap framesFor)
      ∧ ([1].zip [0, 5]).length = min [1].length [0, 5].length
      ∧ (generate_video ([] : List ℕ) [5] = .ok []
          ∧ run_generate_video ([] : List ℕ) [5] (some [3]) = some []) :=
  ⟨(claim_C9_zip_truncation [1] [0, 5] (by decide)).1,
    (claim_C9_zip_truncation [1] [0, 5] (by decide)).2.1,
    (claim_C9_zip_truncation [1] [0, 5] (by decide)).2.2 5 (some [3]) (by decide)⟩

/-- Claim C8: a rescale never modifies the duration of an item that is not
included, on any branch. -/
theorem claim_C8_excluded_unchanged (s : SessionState) (i : ℕ)
    (h : s.use i = false) :
    (rescale_individual_durations s).dur i = s.dur i := by
  have hnot : i ∉ (get_selected_indices_and_durations s).1 := by
    rw [mem_selected_iff]
    rintro ⟨-, huse⟩
    rw [h] at huse
    exact Bool.false_ne_true huse
  by_cases hne : (get_selected_indices_and_durations s).1 = []
  · rw [rescale_eq_self s hne]
  · by_cases hc : (get_selected_indices_and_durations s).2.sum = 0
    · rw [rescale_dur_eq_even s i hne hc, if_neg hnot]
    · rw [rescale_dur_eq_float s i hne hc, if_neg hnot]

/-- Claim C8, witness: two images, the second deselected; its duration
survives the rescale. -/
theorem claim_C8_witness :
    (rescale_individual_durations stateW8).dur 1 = stateW8.dur 1 :=
  claim_C8_excluded_unchanged stateW8 1 (by decide)

/-- Claim C10: a rescale with no included item returns early as a total
no-op — the whole state, durations and stored total included, is unchanged,
and the even-distribution division is never reached. -/
theorem claim_C10_no_selection_noop (s : SessionState)
    (h : ∀ i, i < s.numImages → s.use i = false) :
    rescale_individual_durations s = s := by
  apply rescale_eq_self
  rw [selected_indices_def]
  exact List.filter_eq_nil_iff.mpr (fun a ha => by simp [h a (List.mem_range.mp ha)])

/-- Claim C10, witness: two images, both deselected. -/
theorem claim_C10_witness :
    rescale_individual_durations stateW10 = stateW10 :=
  claim_C10_no_selection_noop stateW10 (by decide)

end StopMotion
